import Mathlib

/-!
Verification development for the eaichat repository.

The repository ships the Next.js frontend (under web/) together with the
design documentation of its backend; the backend services themselves
(Search Service, Sync Orchestrator, Vector Index adapter, Embedding
Service, Checkpoint Store) are not part of the source tree.  Definitions
below that embed frontend code name the file they come from; definitions
for the missing backend components are modelled from the specification
and say so in their doc comment.  Scores and prices are rational numbers,
cursors are naturals, and timestamps are integers.
-/

namespace EAIChat

/-- Modelled from the spec: one ranked hit returned by the Search Service,
carrying a point identifier, a normalized score and the updatedAt payload
field used for tie-breaking (the search backend is missing from the
source tree). -/
structure Hit where
  pointId : String
  score : Rat
  updatedAt : Int
  deriving DecidableEq, Repr

/-- Modelled from the spec: the score a result set assigns to a candidate,
zero when the candidate is absent from the set. -/
def lookupScore (l : List Hit) (i : String) : Rat :=
  match l.find? (fun h => h.pointId == i) with
  | some h => h.score
  | none => 0

/-- Whether a result set contains a candidate with the given identifier. -/
def containsId (l : List Hit) (i : String) : Bool :=
  l.any (fun h => h.pointId == i)

/-- Modelled from the spec: step 4 of hybrid ranking.  Every candidate of
the vector result set is fused with the keyword score looked up by
identifier; keyword-only candidates are appended with vector component
zero.  Absence from one set contributes score 0 for that component and
never disqualifies the candidate. -/
def fuse (alpha : Rat) (vres kres : List Hit) : List Hit :=
  vres.map (fun h =>
    { h with score := alpha * h.score + (1 - alpha) * lookupScore kres h.pointId })
  ++ (kres.filter (fun h => ! containsId vres h.pointId)).map (fun h =>
    { h with score := alpha * 0 + (1 - alpha) * h.score })

/-- Modelled from the spec: the ranking order of step 5 — descending by
score, ties broken by updatedAt descending. -/
def rankLE (a b : Hit) : Bool :=
  decide (b.score < a.score) ||
    (decide (a.score = b.score) && decide (b.updatedAt ≤ a.updatedAt))

/-- Modelled from the spec: hybrid search (steps 4–5) — fuse the two
result sets, sort descending by final score with updatedAt tie-break,
truncate to the limit. -/
def hybridSearch (alpha : Rat) (vres kres : List Hit) (limit : Nat) : List Hit :=
  ((fuse alpha vres kres).mergeSort rankLE).take limit

/-- Modelled from the spec: non-hybrid search — the step-2 dense results
are returned directly under the same sort order and truncation. -/
def semanticSearch (vres : List Hit) (limit : Nat) : List Hit :=
  (vres.mergeSort rankLE).take limit

/-- Modelled from the spec: the pure keyword scoring over the same
candidate universe — every candidate scored by its keyword score alone,
vector-only candidates keeping score 0. -/
def keywordFuse (vres kres : List Hit) : List Hit :=
  vres.map (fun h => { h with score := lookupScore kres h.pointId })
  ++ kres.filter (fun h => ! containsId vres h.pointId)

/-- Modelled from the spec: pure keyword search over the fused candidate
universe, same sort order and truncation. -/
def keywordSearch (vres kres : List Hit) (limit : Nat) : List Hit :=
  ((keywordFuse vres kres).mergeSort rankLE).take limit

/-- Modelled from the spec: the inputs of the Search Service. -/
structure SearchParams where
  query : String
  limit : Int
  hybrid : Option Bool
  alpha : Option Rat
  deriving DecidableEq, Repr

/-- Modelled from the spec: the caller-error classification of the Search
Service. -/
inductive SearchError where
  | InvalidQuery
  deriving DecidableEq, Repr

/-- Modelled from the spec: the Search Service entry point.  An empty
query or a non-positive limit is rejected with InvalidQuery; hybrid
ranking runs only when the hybrid flag is set and alpha is supplied
(alpha absent defaults to pure semantic search); otherwise the step-2
dense results are returned directly. -/
def searchService (p : SearchParams) (vres kres : List Hit) :
    Except SearchError (List Hit) :=
  if p.query = "" then Except.error SearchError.InvalidQuery
  else if p.limit ≤ 0 then Except.error SearchError.InvalidQuery
  else
    match p.hybrid, p.alpha with
    | some true, some a => Except.ok (hybridSearch a vres kres p.limit.toNat)
    | _, _ => Except.ok (semanticSearch vres p.limit.toNat)

/-- Modelled from the spec: whether an error of the Search Service is
retried; caller errors never are. -/
def isRetryable : SearchError → Bool
  | SearchError.InvalidQuery => false

/-- Modelled from the spec: the retry wrapper around a call — a
retryable error is attempted again while budget remains, a
non-retryable error is surfaced at once.  The second component counts
the attempts made. -/
def runWithRetry (op : Nat → Except SearchError (List Hit)) :
    Nat → Nat → Except SearchError (List Hit) × Nat
  | 0, attempt => (op attempt, attempt + 1)
  | budget + 1, attempt =>
    match op attempt with
    | Except.ok r => (Except.ok r, attempt + 1)
    | Except.error e =>
      if isRetryable e then runWithRetry op budget (attempt + 1)
      else (Except.error e, attempt + 1)

/-- Embeds the searchType state of the ProductSearch component in
src/unnamed/part_001. -/
inductive SearchType where
  | semantic
  | hybrid
  deriving DecidableEq, Repr

/-- Embeds handleSearch in src/unnamed/part_001 (lines 24–32): the
request starts as the query plus limit 10; only in hybrid mode are
hybrid = true and alpha = 0.6 added. -/
def buildSearchParams (searchType : SearchType) (query : String) : SearchParams :=
  let params : SearchParams := { query := query, limit := 10, hybrid := none, alpha := none }
  match searchType with
  | SearchType.hybrid => { params with hybrid := some true, alpha := some (3 / 5) }
  | SearchType.semantic => params

/-- Embeds the handleSearch guard in src/unnamed/part_001 (line 20): the
frontend submits no request when the trimmed query is empty, that is,
when the query consists of whitespace only. -/
def frontendSubmits (query : String) : Bool :=
  ! query.toList.all (fun c => c.isWhitespace)

/-- Modelled from the spec: one normalized catalog record as seen by the
pipeline. -/
structure ProductRecord where
  externalId : String
  platform : String
  title : String
  description : String
  price : Rat
  category : Option String
  imageUrl : Option String
  rating : Option Rat
  inStock : Option Bool
  updatedAt : Int
  deriving DecidableEq, Repr

/-- Modelled from the spec: the deterministic point identifier derived
from the natural key (platform, externalId). -/
def pointIdOf (r : ProductRecord) : String :=
  r.platform ++ ":" ++ r.externalId

/-- Modelled from the spec: the unit stored in the Vector Index — point
identifier, named dense vectors and the record as payload. -/
structure IndexedPoint where
  pointId : String
  textVector : List Rat
  imageVector : Option (List Rat)
  payload : ProductRecord
  deriving DecidableEq, Repr

/-- Modelled from the spec: build the indexed point of a record from its
text vector. -/
def mkPoint (r : ProductRecord) (v : List Rat) : IndexedPoint :=
  { pointId := pointIdOf r, textVector := v, imageVector := none, payload := r }

/-- Modelled from the spec: upsert of a single point — a point with the
same identifier is replaced in place, otherwise the point is appended
(the index adapter is missing from the source tree). -/
def upsertOne (m : List IndexedPoint) (p : IndexedPoint) : List IndexedPoint :=
  if m.any (fun q => q.pointId == p.pointId) then
    m.map (fun q => if q.pointId == p.pointId then p else q)
  else m ++ [p]

/-- Modelled from the spec: batch upsert, applied point by point. -/
def upsertBatch (m : List IndexedPoint) (ps : List IndexedPoint) : List IndexedPoint :=
  ps.foldl upsertOne m

/-- The point identifiers stored in an index. -/
def pointIds (m : List IndexedPoint) : List String :=
  m.map IndexedPoint.pointId

/-- The point stored under an identifier, if any. -/
def lookupPoint (m : List IndexedPoint) (i : String) : Option IndexedPoint :=
  m.find? (fun q => q.pointId == i)

/-- Modelled from the spec: the job status of the sync state machine,
collapsed to the observable classes — still running, completed, or
failed. -/
inductive JobStatus where
  | Running
  | Completed
  | Failed
  deriving DecidableEq, Repr

/-- Modelled from the spec: one batch returned by a Connector fetch. -/
structure SyncBatch where
  records : List ProductRecord
  nextCursor : Nat
  hasMore : Bool
  deriving DecidableEq, Repr

/-- Modelled from the spec: the outcome of a Connector fetch once the
retry budget has been applied — a batch, or an error (retryable
SourceUnavailable exhausted, or non-retryable SourceRejected). -/
inductive FetchOutcome where
  | ok (batch : SyncBatch)
  | err (retryable : Bool)
  deriving DecidableEq, Repr

/-- Modelled from the spec: the mutable state of one sync job — the
checkpoint cursor, the index contents, the progress counters and the
status. -/
structure JobState where
  checkpoint : Nat
  index : List IndexedPoint
  recordsProcessed : Nat
  recordsFailed : Nat
  status : JobStatus
  deriving DecidableEq, Repr

/-- Modelled from the spec: the records of a batch whose embedding
succeeded, turned into indexed points; records whose embedding failed
are excluded. -/
def keptPoints (emb : ProductRecord → Option (List Rat)) (rs : List ProductRecord) :
    List IndexedPoint :=
  rs.filterMap (fun r => (emb r).map (mkPoint r))

/-- Modelled from the spec: processing of one fetched batch — embed,
keep the successful records, count the failures, upsert the kept points,
then advance the checkpoint to the batch cursor; the job keeps running
while the Connector reports more data and completes otherwise. -/
def applyBatch (emb : ProductRecord → Option (List Rat)) (s : JobState) (b : SyncBatch) :
    JobState :=
  { s with
    index := upsertBatch s.index (keptPoints emb b.records),
    recordsProcessed := s.recordsProcessed + (keptPoints emb b.records).length,
    recordsFailed := s.recordsFailed + b.records.countP (fun r => (emb r).isNone),
    checkpoint := b.nextCursor,
    status := if b.hasMore then JobStatus.Running else JobStatus.Completed }

/-- Modelled from the spec: the sync loop of the orchestrator, driven by
a cursor-indexed Connector.  A Connector error fails the job without
touching the checkpoint; a successful batch is processed and the loop
continues while hasMore.  The second component is the trace of job
states after each successfully processed batch. -/
def runSync (conn : Nat → FetchOutcome) (emb : ProductRecord → Option (List Rat)) :
    Nat → JobState → JobState × List JobState
  | 0, s => (s, [])
  | fuel + 1, s =>
    match conn s.checkpoint with
    | FetchOutcome.err _ => ({ s with status := JobStatus.Failed }, [])
    | FetchOutcome.ok b =>
      if b.hasMore then
        ((runSync conn emb fuel (applyBatch emb s b)).1,
          applyBatch emb s b :: (runSync conn emb fuel (applyBatch emb s b)).2)
      else (applyBatch emb s b, [applyBatch emb s b])

/-- Modelled from the spec: the checkpoint and lease key — a
(collection, platform) pair. -/
structure LeaseKey where
  collection : String
  platform : String
  deriving DecidableEq, Repr

/-- Modelled from the spec: the rejection of a StartSync request whose
lease is already held. -/
inductive StartSyncError where
  | SyncAlreadyRunning
  deriving DecidableEq, Repr

/-- Modelled from the spec: the Checkpoint Store as serialization point —
the lease keys currently held, the next job identifier, and the stored
checkpoint cursors. -/
structure SyncRegistry where
  held : List LeaseKey
  nextJobId : Nat
  checkpoints : List (LeaseKey × Nat)
  deriving DecidableEq, Repr

/-- Modelled from the spec: StartSync — acquiring the job lease on the
key is the precondition for starting a job; when the lease is held the
request is rejected with SyncAlreadyRunning and the store is left
untouched. -/
def startSync (st : SyncRegistry) (k : LeaseKey) : Except StartSyncError Nat × SyncRegistry :=
  if k ∈ st.held then (Except.error StartSyncError.SyncAlreadyRunning, st)
  else (Except.ok st.nextJobId,
    { st with held := k :: st.held, nextJobId := st.nextJobId + 1 })

/-- Embeds EAIChatAPI.createCollection from src/web/next.config.ts (API
client section, lines 124–131): the TypeScript default parameter makes
an absent recreate argument false in the request body. -/
def createCollectionRequestBody (recreate : Option Bool) : Bool :=
  recreate.getD false

/-- Modelled from the spec: createCollection on the Vector Index — with
recreate the collection is destroyed and rebuilt empty, without it an
existing collection and its points are preserved (the index adapter is
missing from the source tree). -/
def applyCreateCollection (existing : Option (List IndexedPoint)) (recreate : Bool) :
    Option (List IndexedPoint) :=
  if recreate then some []
  else
    match existing with
    | some pts => some pts
    | none => some []

/-- Split a list into chunks of size n + 1, in order. -/
def chunks (n : Nat) (xs : List α) : List (List α) :=
  match xs with
  | [] => []
  | x :: rest => ((x :: rest).take (n + 1)) :: chunks n ((x :: rest).drop (n + 1))
termination_by xs.length
decreasing_by simp [List.length_drop]; omega

/-- Modelled from the spec: the Embedding Service text contract — one
dense vector per input text, in order. -/
def embed (model : String → List Rat) (texts : List String) : List (List Rat) :=
  texts.map model

/-- Modelled from the spec: the batched form of the text contract — the
inputs are cut into sub-batches of size n + 1, each sub-batch is
embedded, and the outputs are concatenated in order. -/
def embedBatched (model : String → List Rat) (n : Nat) (texts : List String) :
    List (List Rat) :=
  ((chunks n texts).map (fun ts => ts.map model)).flatten

/-- Modelled from the spec: the image contract — one entry per URL, in
order, where a URL that could not be fetched or decoded yields an absent
entry instead of failing the batch. -/
def embedImage (fetchEmbed : String → Option (List Rat)) (urls : List String) :
    List (Option (List Rat)) :=
  urls.map fetchEmbed

/-- Sample vector result set used by witnesses. -/
def vresW : List Hit :=
  [{ pointId := "fakestore:1", score := 9 / 10, updatedAt := 100 },
   { pointId := "fakestore:2", score := 1 / 2, updatedAt := 90 }]

/-- Sample keyword result set used by witnesses; its candidates all
appear in the vector result set. -/
def kresW : List Hit :=
  [{ pointId := "fakestore:1", score := 3 / 4, updatedAt := 100 }]

/-- Sample catalog record used by witnesses. -/
def recW1 : ProductRecord :=
  { externalId := "1", platform := "fakestore", title := "blue jacket",
    description := "warm blue jacket", price := 40, category := some "clothing",
    imageUrl := none, rating := none, inStock := some true, updatedAt := 100 }

/-- Sample catalog record used by witnesses. -/
def recW2 : ProductRecord :=
  { externalId := "2", platform := "fakestore", title := "red jacket",
    description := "bright red jacket", price := 80, category := some "clothing",
    imageUrl := none, rating := none, inStock := some true, updatedAt := 90 }

/-- Sample catalog record used by witnesses. -/
def recW3 : ProductRecord :=
  { externalId := "3", platform := "fakestore", title := "blue shirt",
    description := "cotton blue shirt", price := 20, category := some "clothing",
    imageUrl := none, rating := none, inStock := some true, updatedAt := 80 }

/-- Sample index contents used by witnesses. -/
def idxW : List IndexedPoint :=
  [mkPoint recW1 [1, 0]]

/-- Sample upsert batch used by witnesses: it rewrites the point of
recW1 and adds the point of recW3. -/
def psW : List IndexedPoint :=
  [mkPoint recW1 [0, 1], mkPoint recW3 [1, 1]]

/-- Sample embedder used by witnesses: it fails on recW2 and succeeds on
every other record. -/
def embW : ProductRecord → Option (List Rat) :=
  fun r => if r.externalId == "2" then none else some [1, 0]

/-- Sample connector used by witnesses: two batches, cursor 0 to 2 to 3,
then an empty final batch. -/
def connW : Nat → FetchOutcome := fun c =>
  if c == 0 then FetchOutcome.ok { records := [recW1, recW2], nextCursor := 2, hasMore := true }
  else if c == 2 then FetchOutcome.ok { records := [recW3], nextCursor := 3, hasMore := false }
  else FetchOutcome.ok { records := [], nextCursor := c, hasMore := false }

/-- Sample fetched batch used by witnesses. -/
def batchW : SyncBatch :=
  { records := [recW1, recW2], nextCursor := 2, hasMore := true }

/-- Sample initial job state used by witnesses. -/
def jobW : JobState :=
  { checkpoint := 0, index := [], recordsProcessed := 0, recordsFailed := 0,
    status := JobStatus.Running }

/-- Sample lease key used by witnesses. -/
def keyW : LeaseKey :=
  { collection := "products", platform := "fakestore" }

/-- Sample checkpoint store state used by witnesses: no lease held. -/
def regW : SyncRegistry :=
  { held := [], nextJobId := 1, checkpoints := [(keyW, 0)] }

/-- Sample search parameters used by witnesses: no hybrid flag, no
alpha. -/
def paramsW : SearchParams :=
  { query := "blue jacket", limit := 10, hybrid := none, alpha := none }

/-- Sample rejected search parameters used by witnesses. -/
def badParamsW : SearchParams :=
  { query := "", limit := 10, hybrid := none, alpha := none }

/-- The ranking order is total. -/
theorem rankLE_total (a b : Hit) : (rankLE a b || rankLE b a) = true := by
  unfold rankLE
  rcases lt_trichotomy a.score b.score with h | h | h
  · simp [h]
  · rcases Int.le_total a.updatedAt b.updatedAt with h2 | h2 <;> simp [h, h2]
  · simp [h]

/-- The ranking order is transitive. -/
theorem rankLE_trans (a b c : Hit) (hab : rankLE a b = true) (hbc : rankLE b c = true) :
    rankLE a c = true := by
  unfold rankLE at *
  simp only [Bool.or_eq_true, Bool.and_eq_true, decide_eq_true_eq] at *
  rcases hab with h1 | ⟨h1, h12⟩
  · rcases hbc with h2 | ⟨h2, h22⟩
    · exact Or.inl (lt_trans h2 h1)
    · exact Or.inl (h2 ▸ h1)
  · rcases hbc with h2 | ⟨h2, h22⟩
    · exact Or.inl (h1 ▸ h2)
    · exact Or.inr ⟨h1.trans h2, le_trans h22 h12⟩

/-- A candidate found in a result set contributes its stored score. -/
theorem lookupScore_of_find (l : List Hit) (i : String) (h : Hit)
    (hf : l.find? (fun q => q.pointId == i) = some h) : lookupScore l i = h.score := by
  unfold lookupScore
  rw [hf]

/-- A candidate absent from a result set contributes score zero. -/
theorem lookupScore_of_not_contains (l : List Hit) (i : String)
    (hc : containsId l i = false) : lookupScore l i = 0 := by
  have hnone : l.find? (fun q => q.pointId == i) = none := by
    rw [List.find?_eq_none]
    intro x hx hpx
    have : containsId l i = true := List.any_eq_true.mpr ⟨x, hx, hpx⟩
    rw [hc] at this
    exact Bool.false_ne_true this
  unfold lookupScore
  rw [hnone]

/-- A contained identifier has a witnessing find? result. -/
theorem find_of_contains (l : List Hit) (i : String) (hc : containsId l i = true) :
    ∃ h, l.find? (fun q => q.pointId == i) = some h ∧ h.pointId = i ∧ h ∈ l := by
  obtain ⟨x, hx, hpx⟩ := List.any_eq_true.mp hc
  cases hfind : l.find? (fun q => q.pointId == i) with
  | some h =>
    refine ⟨h, rfl, ?_, List.mem_of_find?_eq_some hfind⟩
    have := List.find?_some hfind
    simpa using this
  | none => exact absurd hpx (List.find?_eq_none.mp hfind x hx)

/-- C1: for every hybrid search with blend weight alpha in [0,1], every
candidate appearing in either the vector or the keyword result set is
present in the fused candidate list with finalScore equal to
alpha * vectorScore + (1 - alpha) * keywordScore, absence in one set
contributing score 0 for that component; and the returned hits are the
fused candidates sorted descending by finalScore with ties broken by
updatedAt descending, truncated to the limit. -/
theorem hybrid_fusion_ranking (alpha : Rat) (vres kres : List Hit) (limit : Nat)
    (h0 : 0 ≤ alpha) (h1 : alpha ≤ 1) :
    (∀ i, containsId vres i = true ∨ containsId kres i = true →
        ∃ h ∈ fuse alpha vres kres, h.pointId = i ∧
          h.score = alpha * lookupScore vres i + (1 - alpha) * lookupScore kres i)
    ∧ List.Pairwise (fun a b => rankLE a b = true) ((fuse alpha vres kres).mergeSort rankLE)
    ∧ ((fuse alpha vres kres).mergeSort rankLE).Perm (fuse alpha vres kres)
    ∧ hybridSearch alpha vres kres limit = ((fuse alpha vres kres).mergeSort rankLE).take limit := by
  refine ⟨?_, List.sorted_mergeSort rankLE_trans rankLE_total _,
    List.mergeSort_perm _ _, rfl⟩
  intro i hi
  by_cases hv : containsId vres i = true
  · obtain ⟨h, hf, hid, hmem⟩ := find_of_contains vres i hv
    refine ⟨{ h with score := alpha * h.score + (1 - alpha) * lookupScore kres h.pointId },
      List.mem_append_left _ (List.mem_map_of_mem _ hmem), hid, ?_⟩
    rw [lookupScore_of_find vres i h hf, hid]
  · have hv2 : containsId vres i = false := by
      cases hcv : containsId vres i with
      | true => exact absurd hcv hv
      | false => rfl
    have hk : containsId kres i = true := by
      rcases hi with h | h
      · exact absurd h hv
      · exact h
    obtain ⟨h, hf, hid, hmem⟩ := find_of_contains kres i hk
    have hfil : h ∈ kres.filter (fun q => ! containsId vres q.pointId) := by
      refine List.mem_filter.mpr ⟨hmem, ?_⟩
      rw [hid, hv2]
      rfl
    refine ⟨{ h with score := alpha * 0 + (1 - alpha) * h.score },
      List.mem_append_right _ (List.mem_map_of_mem _ hfil), hid, ?_⟩
    rw [lookupScore_of_not_contains vres i hv2, lookupScore_of_find kres i h hf]

/-- Concrete instantiation of hybrid_fusion_ranking at alpha = 1/2 on
the sample result sets. -/
theorem hybrid_fusion_ranking_witness :
    List.Pairwise (fun a b => rankLE a b = true)
        ((fuse (1 / 2) vresW kresW).mergeSort rankLE)
    ∧ hybridSearch (1 / 2) vresW kresW 2
        = ((fuse (1 / 2) vresW kresW).mergeSort rankLE).take 2 :=
  ⟨(hybrid_fusion_ranking (1 / 2) vresW kresW 2 (by norm_num) (by norm_num)).2.1,
   (hybrid_fusion_ranking (1 / 2) vresW kresW 2 (by norm_num) (by norm_num)).2.2.2⟩

/-- With alpha = 1, and every keyword candidate drawn from the same
filtered candidate set as the vector results, fusion reduces to the
vector result set itself. -/
theorem fuse_one (vres kres : List Hit)
    (hsub : ∀ h ∈ kres, containsId vres h.pointId = true) :
    fuse 1 vres kres = vres := by
  unfold fuse
  have hfil : kres.filter (fun h => ! containsId vres h.pointId) = [] := by
    rw [List.filter_eq_nil_iff]
    intro h hh
    simp [hsub h hh]
  rw [hfil]
  simp only [List.map_nil, List.append_nil]
  have hmap : ∀ h ∈ vres,
      ({ h with score := 1 * h.score + (1 - 1) * lookupScore kres h.pointId } : Hit) = h := by
    intro h _
    have hs : (1 : Rat) * h.score + (1 - 1) * lookupScore kres h.pointId = h.score := by
      ring
    rw [hs]
  rw [List.map_congr_left hmap]
  simp

/-- With alpha = 0, fusion reduces to the pure keyword scoring of the
same candidate universe. -/
theorem fuse_zero (vres kres : List Hit) :
    fuse 0 vres kres = keywordFuse vres kres := by
  unfold fuse keywordFuse
  congr 1
  · apply List.map_congr_left
    intro h _
    have hs : (0 : Rat) * h.score + (1 - 0) * lookupScore kres h.pointId
        = lookupScore kres h.pointId := by ring
    rw [hs]
  · have hmap : ∀ h ∈ kres.filter (fun q => ! containsId vres q.pointId),
        ({ h with score := 0 * 0 + (1 - 0) * h.score } : Hit) = h := by
      intro h _
      have hs : (0 : Rat) * 0 + (1 - 0) * h.score = h.score := by ring
      rw [hs]
    rw [List.map_congr_left hmap]
    simp

/-- C2: for a fixed query, filter set and candidate set, hybrid search
with alpha = 1 produces the same ranking as non-hybrid search, and
hybrid search with alpha = 0 produces the pure keyword ranking; at the
Search operation level, hybrid = true with alpha = 1 returns exactly
what hybrid = false returns.  Both facts follow from the fusion formula
alone, with no special-cased code path. -/
theorem fusion_boundary (vres kres : List Hit) (limit : Nat)
    (hsub : ∀ h ∈ kres, containsId vres h.pointId = true) :
    hybridSearch 1 vres kres limit = semanticSearch vres limit
    ∧ hybridSearch 0 vres kres limit = keywordSearch vres kres limit
    ∧ (∀ q : String, ∀ lim : Int, q ≠ "" → ¬ lim ≤ 0 →
        searchService { query := q, limit := lim, hybrid := some true, alpha := some 1 } vres kres
          = searchService { query := q, limit := lim, hybrid := some false, alpha := none } vres kres) := by
  refine ⟨?_, ?_, ?_⟩
  · unfold hybridSearch semanticSearch
    rw [fuse_one vres kres hsub]
  · unfold hybridSearch keywordSearch
    rw [fuse_zero]
  · intro q lim hq hl
    have hgen : hybridSearch 1 vres kres lim.toNat = semanticSearch vres lim.toNat := by
      unfold hybridSearch semanticSearch
      rw [fuse_one vres kres hsub]
    simp only [searchService, if_neg hq, if_neg hl]
    exact congrArg Except.ok hgen

/-- Concrete instantiation of fusion_boundary on the sample result
sets. -/
theorem fusion_boundary_witness :
    hybridSearch 1 vresW kresW 2 = semanticSearch vresW 2
    ∧ hybridSearch 0 vresW kresW 2 = keywordSearch vresW kresW 2 :=
  ⟨(fusion_boundary vresW kresW 2 (by decide)).1,
   (fusion_boundary vresW kresW 2 (by decide)).2.1⟩

/-- C8: when alpha is absent and the hybrid flag is false or absent, the
Search operation is pure semantic search: the step-2 dense results are
returned directly under the same tie-break, the keyword result set has
no influence at all, the output is sorted by the ranking order, scores
stay inside [0,1] whenever the dense scores are normalized, and the
frontend semantic mode indeed sends neither hybrid nor alpha. -/
theorem semantic_default (p : SearchParams) (vres kres kres2 : List Hit)
    (hq : p.query ≠ "") (hl : ¬ p.limit ≤ 0)
    (hh : p.hybrid = none ∨ p.hybrid = some false) (ha : p.alpha = none) :
    searchService p vres kres = Except.ok (semanticSearch vres p.limit.toNat)
    ∧ searchService p vres kres = searchService p vres kres2
    ∧ List.Pairwise (fun a b => rankLE a b = true) (semanticSearch vres p.limit.toNat)
    ∧ ((∀ h ∈ vres, 0 ≤ h.score ∧ h.score ≤ 1) →
        ∀ h ∈ semanticSearch vres p.limit.toNat, 0 ≤ h.score ∧ h.score ≤ 1)
    ∧ (buildSearchParams SearchType.semantic p.query).hybrid = none
    ∧ (buildSearchParams SearchType.semantic p.query).alpha = none := by
  have hok : ∀ kr : List Hit,
      searchService p vres kr = Except.ok (semanticSearch vres p.limit.toNat) := by
    intro kr
    simp only [searchService, if_neg hq, if_neg hl]
    rcases hh with h | h <;> rw [h, ha]
  refine ⟨hok kres, (hok kres).trans (hok kres2).symm, ?_, ?_, rfl, rfl⟩
  · exact List.Pairwise.sublist (List.take_sublist _ _)
      (List.sorted_mergeSort rankLE_trans rankLE_total vres)
  · intro hnorm h hmem
    exact hnorm h (List.mem_mergeSort.mp (List.mem_of_mem_take hmem))

/-- Concrete instantiation of semantic_default on the sample inputs. -/
theorem semantic_default_witness :
    searchService paramsW vresW kresW = Except.ok (semanticSearch vresW 10)
    ∧ searchService paramsW vresW kresW = searchService paramsW vresW [] :=
  ⟨(semantic_default paramsW vresW kresW [] (by decide) (by decide) (Or.inl rfl) rfl).1,
   (semantic_default paramsW vresW kresW [] (by decide) (by decide) (Or.inl rfl) rfl).2.1⟩

/-- C6: a Search call with an empty query or a non-positive limit is
rejected with InvalidQuery; the rejection is returned synchronously as
the call's own result and, being non-retryable, the retry wrapper makes
exactly one attempt.  The frontend additionally never submits an empty
query at all. -/
theorem invalid_query_rejected (p : SearchParams) (vres kres : List Hit) (budget : Nat)
    (h : p.query = "" ∨ p.limit ≤ 0) :
    searchService p vres kres = Except.error SearchError.InvalidQuery
    ∧ runWithRetry (fun _ => searchService p vres kres) budget 0
        = (Except.error SearchError.InvalidQuery, 1)
    ∧ frontendSubmits "" = false := by
  have herr : searchService p vres kres = Except.error SearchError.InvalidQuery := by
    by_cases hq : p.query = ""
    · simp [searchService, hq]
    · have hl : p.limit ≤ 0 := by
        rcases h with h | h
        · exact absurd h hq
        · exact h
      simp [searchService, hq, hl]
  refine ⟨herr, ?_, by decide⟩
  cases budget with
  | zero => simp [runWithRetry, herr]
  | succ n => simp [runWithRetry, herr, isRetryable]

/-- Concrete instantiation of invalid_query_rejected on the empty
query. -/
theorem invalid_query_rejected_witness :
    searchService badParamsW vresW kresW = Except.error SearchError.InvalidQuery
    ∧ runWithRetry (fun _ => searchService badParamsW vresW kresW) 3 0
        = (Except.error SearchError.InvalidQuery, 1) :=
  ⟨(invalid_query_rejected badParamsW vresW kresW 3 (Or.inl rfl)).1,
   (invalid_query_rejected badParamsW vresW kresW 3 (Or.inl rfl)).2.1⟩

/-- Upserting a point whose identifier is already indexed leaves the
identifier list unchanged. -/
theorem pointIds_upsertOne_of_mem (m : List IndexedPoint) (p : IndexedPoint)
    (h : p.pointId ∈ pointIds m) : pointIds (upsertOne m p) = pointIds m := by
  have hex : ∃ q ∈ m, (q.pointId == p.pointId) = true := by
    obtain ⟨q, hq, hid⟩ := List.mem_map.mp h
    exact ⟨q, hq, by simp [hid]⟩
  have hany : m.any (fun q => q.pointId == p.pointId) = true := List.any_eq_true.mpr hex
  unfold upsertOne
  rw [if_pos hany]
  unfold pointIds
  rw [List.map_map]
  apply List.map_congr_left
  intro q hq
  by_cases hc : (q.pointId == p.pointId) = true
  · have hqe : q.pointId = p.pointId := by simpa using hc
    simp [Function.comp, hc, hqe]
  · simp [Function.comp, hc]

/-- Upserting a point with a fresh identifier appends it. -/
theorem pointIds_upsertOne_of_not_mem (m : List IndexedPoint) (p : IndexedPoint)
    (h : p.pointId ∉ pointIds m) :
    pointIds (upsertOne m p) = pointIds m ++ [p.pointId] := by
  have hany : ¬ m.any (fun q => q.pointId == p.pointId) = true := by
    intro hc
    obtain ⟨q, hq, hid⟩ := List.any_eq_true.mp hc
    exact h (List.mem_map.mpr ⟨q, hq, by simpa using hid⟩)
  unfold upsertOne
  rw [if_neg hany]
  simp [pointIds]

/-- Upsert of a single point preserves identifier uniqueness. -/
theorem nodup_pointIds_upsertOne (m : List IndexedPoint) (p : IndexedPoint)
    (h : (pointIds m).Nodup) : (pointIds (upsertOne m p)).Nodup := by
  by_cases hmem : p.pointId ∈ pointIds m
  · rw [pointIds_upsertOne_of_mem m p hmem]
    exact h
  · rw [pointIds_upsertOne_of_not_mem m p hmem, List.nodup_append]
    refine ⟨h, List.nodup_singleton _, ?_⟩
    intro a ha hb
    rw [List.mem_singleton] at hb
    exact hmem (hb ▸ ha)

/-- Identifier membership after a single upsert. -/
theorem mem_pointIds_upsertOne (m : List IndexedPoint) (p : IndexedPoint) (i : String) :
    i ∈ pointIds (upsertOne m p) ↔ i ∈ pointIds m ∨ i = p.pointId := by
  by_cases hmem : p.pointId ∈ pointIds m
  · rw [pointIds_upsertOne_of_mem m p hmem]
    constructor
    · exact Or.inl
    · rintro (h | h)
      · exact h
      · exact h ▸ hmem
  · rw [pointIds_upsertOne_of_not_mem m p hmem]
    simp [List.mem_append]

/-- A batch whose identifiers are all indexed leaves the identifier list
unchanged. -/
theorem pointIds_upsertBatch_of_subset (ps : List IndexedPoint) (m : List IndexedPoint)
    (h : ∀ p ∈ ps, p.pointId ∈ pointIds m) :
    pointIds (upsertBatch m ps) = pointIds m := by
  induction ps generalizing m with
  | nil => rfl
  | cons p ps ih =>
    have h1 : pointIds (upsertOne m p) = pointIds m :=
      pointIds_upsertOne_of_mem m p (h p (List.mem_cons_self p ps))
    have h2 : ∀ q ∈ ps, q.pointId ∈ pointIds (upsertOne m p) := by
      intro q hq
      rw [h1]
      exact h q (List.mem_cons_of_mem p hq)
    show pointIds (upsertBatch (upsertOne m p) ps) = pointIds m
    rw [ih (upsertOne m p) h2, h1]

/-- Batch upsert preserves identifier uniqueness. -/
theorem nodup_pointIds_upsertBatch (ps : List IndexedPoint) (m : List IndexedPoint)
    (h : (pointIds m).Nodup) : (pointIds (upsertBatch m ps)).Nodup := by
  induction ps generalizing m with
  | nil => exact h
  | cons p ps ih => exact ih (upsertOne m p) (nodup_pointIds_upsertOne m p h)

/-- Identifier membership after a batch upsert. -/
theorem mem_pointIds_upsertBatch (ps : List IndexedPoint) (m : List IndexedPoint) (i : String) :
    i ∈ pointIds (upsertBatch m ps) ↔ i ∈ pointIds m ∨ i ∈ pointIds ps := by
  induction ps generalizing m with
  | nil => simp [upsertBatch, pointIds]
  | cons p ps ih =>
    show i ∈ pointIds (upsertBatch (upsertOne m p) ps) ↔ _
    rw [ih (upsertOne m p)]
    rw [mem_pointIds_upsertOne]
    unfold pointIds
    rw [List.map_cons, List.mem_cons]
    tauto

/-- Replacing the entry of a point identifier makes the replacement the
find? result for that identifier. -/
theorem find_upsert_map_self (m : List IndexedPoint) (p : IndexedPoint) :
    (m.map (fun q => if q.pointId == p.pointId then p else q)).find?
        (fun q => q.pointId == p.pointId)
      = if m.any (fun q => q.pointId == p.pointId) then some p else none := by
  induction m with
  | nil => rfl
  | cons q m ih =>
    rw [List.map_cons, List.any_cons]
    by_cases hc : (q.pointId == p.pointId) = true
    · rw [if_pos hc, hc, Bool.true_or, if_pos rfl]
      simp [List.find?_cons]
    · have hcf : (q.pointId == p.pointId) = false := by
        cases hcc : q.pointId == p.pointId
        · rfl
        · exact absurd hcc hc
      rw [if_neg hc, hcf, Bool.false_or]
      simp only [List.find?_cons, hcf]
      exact ih

/-- Replacing the entry of one identifier does not change the find?
result for a different identifier. -/
theorem find_upsert_map_ne (m : List IndexedPoint) (p : IndexedPoint) (i : String)
    (hne : i ≠ p.pointId) :
    (m.map (fun q => if q.pointId == p.pointId then p else q)).find?
        (fun q => q.pointId == i)
      = m.find? (fun q => q.pointId == i) := by
  induction m with
  | nil => rfl
  | cons q m ih =>
    rw [List.map_cons]
    by_cases hc : (q.pointId == p.pointId) = true
    · rw [if_pos hc]
      have hq : q.pointId = p.pointId := by simpa using hc
      have hpif : (p.pointId == i) = false := by
        cases hpc : p.pointId == i
        · rfl
        · exact absurd ((by simpa using hpc : p.pointId = i)).symm hne
      have hqif : (q.pointId == i) = false := by
        rw [hq]
        exact hpif
      simp only [List.find?_cons, hpif, hqif]
      exact ih
    · rw [if_neg hc]
      simp only [List.find?_cons]
      cases hqi : q.pointId == i
      · exact ih
      · rfl

/-- After upserting a point, looking its identifier up returns exactly
that point: replaced in place when present, appended when fresh. -/
theorem lookupPoint_upsertOne_self (m : List IndexedPoint) (p : IndexedPoint) :
    lookupPoint (upsertOne m p) p.pointId = some p := by
  unfold upsertOne lookupPoint
  by_cases hany : m.any (fun q => q.pointId == p.pointId) = true
  · rw [if_pos hany, find_upsert_map_self, if_pos hany]
  · rw [if_neg hany, List.find?_append]
    have hnone : m.find? (fun q => q.pointId == p.pointId) = none := by
      rw [List.find?_eq_none]
      intro x hx hpx
      exact hany (List.any_eq_true.mpr ⟨x, hx, hpx⟩)
    rw [hnone]
    simp [List.find?]

/-- Upserting one point leaves every other identifier's entry
unchanged. -/
theorem lookupPoint_upsertOne_ne (m : List IndexedPoint) (p : IndexedPoint) (i : String)
    (hne : i ≠ p.pointId) : lookupPoint (upsertOne m p) i = lookupPoint m i := by
  unfold upsertOne lookupPoint
  by_cases hany : m.any (fun q => q.pointId == p.pointId) = true
  · rw [if_pos hany]
    exact find_upsert_map_ne m p i hne
  · rw [if_neg hany, List.find?_append]
    have hpi : (p.pointId == i) = false := by
      cases hpc : p.pointId == i
      · rfl
      · exact absurd ((by simpa using hpc : p.pointId = i)).symm hne
    cases hf : m.find? (fun q => q.pointId == i) with
    | some q => rfl
    | none => simp [List.find?, hpi]

/-- Looking up an identifier after a batch upsert returns the last
write of that identifier in the batch, and otherwise the previous
entry: per-point last-write-wins. -/
theorem lookupPoint_upsertBatch (ps : List IndexedPoint) (m : List IndexedPoint) (i : String) :
    lookupPoint (upsertBatch m ps) i =
      match ps.reverse.find? (fun q => q.pointId == i) with
      | some q => some q
      | none => lookupPoint m i := by
  induction ps generalizing m with
  | nil => rfl
  | cons p ps ih =>
    show lookupPoint (upsertBatch (upsertOne m p) ps) i = _
    rw [ih (upsertOne m p), List.reverse_cons, List.find?_append]
    cases hf : ps.reverse.find? (fun q => q.pointId == i) with
    | some q => rfl
    | none =>
      by_cases hpi : (p.pointId == i) = true
      · have hpe : p.pointId = i := by simpa using hpi
        subst hpe
        rw [lookupPoint_upsertOne_self]
        simp [List.find?]
      · have hne : i ≠ p.pointId := by
          intro h
          rw [h] at hpi
          exact hpi (by simp)
        have hpif : (p.pointId == i) = false := by
          cases hpc : p.pointId == i
          · rfl
          · exact absurd hpc hpi
        rw [lookupPoint_upsertOne_ne m p i hne]
        simp [List.find?, hpif]

/-- C3: the pair (platform, externalId), through its deterministic point
identifier, stays unique in the index across upserts: batch upsert
preserves identifier uniqueness, re-ingesting only already-indexed keys
leaves the identifier list (hence the point count) unchanged, replaying
the same batch changes neither the identifiers nor any stored entry,
and each key's stored point is the last write of that key in the
batch. -/
theorem index_natural_key_replay (idx ps : List IndexedPoint)
    (hnodup : (pointIds idx).Nodup) :
    (pointIds (upsertBatch idx ps)).Nodup
    ∧ ((∀ p ∈ ps, p.pointId ∈ pointIds idx) → pointIds (upsertBatch idx ps) = pointIds idx)
    ∧ pointIds (upsertBatch (upsertBatch idx ps) ps) = pointIds (upsertBatch idx ps)
    ∧ (∀ i, lookupPoint (upsertBatch (upsertBatch idx ps) ps) i
        = lookupPoint (upsertBatch idx ps) i)
    ∧ (∀ p ∈ ps, ps.reverse.find? (fun q => q.pointId == p.pointId) = some p →
        lookupPoint (upsertBatch idx ps) p.pointId = some p) := by
  refine ⟨nodup_pointIds_upsertBatch ps idx hnodup,
    pointIds_upsertBatch_of_subset ps idx, ?_, ?_, ?_⟩
  · apply pointIds_upsertBatch_of_subset
    intro p hp
    rw [mem_pointIds_upsertBatch]
    exact Or.inr (List.mem_map_of_mem _ hp)
  · intro i
    rw [lookupPoint_upsertBatch ps (upsertBatch idx ps) i]
    cases hf : ps.reverse.find? (fun q => q.pointId == i) with
    | some q => rw [lookupPoint_upsertBatch ps idx i, hf]
    | none => rfl
  · intro p hp hlast
    rw [lookupPoint_upsertBatch ps idx p.pointId, hlast]

/-- Concrete instantiation of index_natural_key_replay on the sample
index and batch. -/
theorem index_natural_key_replay_witness :
    (pointIds (upsertBatch idxW psW)).Nodup
    ∧ pointIds (upsertBatch (upsertBatch idxW psW) psW) = pointIds (upsertBatch idxW psW) :=
  ⟨(index_natural_key_replay idxW psW (by decide)).1,
   (index_natural_key_replay idxW psW (by decide)).2.2.1⟩

/-- C9: the embedded API client defaults recreate to false when the
parameter is not supplied, so an existing collection and its points are
preserved; destructive recreation happens only when recreate = true is
explicitly passed. -/
theorem create_collection_not_destructive_by_default (pts : List IndexedPoint) :
    createCollectionRequestBody none = false
    ∧ applyCreateCollection (some pts) (createCollectionRequestBody none) = some pts
    ∧ (∀ r : Option Bool, createCollectionRequestBody r = true → r = some true) := by
  refine ⟨rfl, rfl, ?_⟩
  intro r hr
  cases r with
  | none => exact absurd hr (by decide)
  | some b =>
    cases b with
    | false => exact absurd hr (by decide)
    | true => rfl

/-- Concrete instantiation of create_collection_not_destructive_by_default
on the sample collection. -/
theorem create_collection_not_destructive_by_default_witness :
    createCollectionRequestBody none = false
    ∧ applyCreateCollection (some idxW) (createCollectionRequestBody none) = some idxW
    ∧ (some true : Option Bool) = some true :=
  ⟨(create_collection_not_destructive_by_default idxW).1,
   (create_collection_not_destructive_by_default idxW).2.1,
   (create_collection_not_destructive_by_default idxW).2.2 (some true) rfl⟩

/-- Unfolding of the sync loop on a connector error. -/
theorem runSync_err (conn : Nat → FetchOutcome) (emb : ProductRecord → Option (List Rat))
    (fuel : Nat) (s : JobState) (r : Bool) (hc : conn s.checkpoint = FetchOutcome.err r) :
    runSync conn emb (fuel + 1) s = ({ s with status := JobStatus.Failed }, []) := by
  simp [runSync, hc]

/-- Unfolding of the sync loop on a successful batch with more data. -/
theorem runSync_ok_more (conn : Nat → FetchOutcome) (emb : ProductRecord → Option (List Rat))
    (fuel : Nat) (s : JobState) (b : SyncBatch)
    (hc : conn s.checkpoint = FetchOutcome.ok b) (hm : b.hasMore = true) :
    runSync conn emb (fuel + 1) s
      = ((runSync conn emb fuel (applyBatch emb s b)).1,
        applyBatch emb s b :: (runSync conn emb fuel (applyBatch emb s b)).2) := by
  simp [runSync, hc, hm]

/-- Unfolding of the sync loop on a successful final batch. -/
theorem runSync_ok_done (conn : Nat → FetchOutcome) (emb : ProductRecord → Option (List Rat))
    (fuel : Nat) (s : JobState) (b : SyncBatch)
    (hc : conn s.checkpoint = FetchOutcome.ok b) (hm : b.hasMore = false) :
    runSync conn emb (fuel + 1) s = (applyBatch emb s b, [applyBatch emb s b]) := by
  simp [runSync, hc, hm]

/-- The final checkpoint of a run equals the checkpoint after the last
successfully processed batch, or the initial cursor when no batch
succeeded. -/
theorem runSync_last_checkpoint (conn : Nat → FetchOutcome)
    (emb : ProductRecord → Option (List Rat)) (fuel : Nat) (s : JobState) :
    (runSync conn emb fuel s).1.checkpoint
      = ((runSync conn emb fuel s).2.getLastD s).checkpoint := by
  induction fuel generalizing s with
  | zero => rfl
  | succ fuel ih =>
    cases hc : conn s.checkpoint with
    | err r =>
      rw [runSync_err conn emb fuel s r hc]
      rfl
    | ok b =>
      cases hm : b.hasMore with
      | false =>
        rw [runSync_ok_done conn emb fuel s b hc hm]
        rfl
      | true =>
        rw [runSync_ok_more conn emb fuel s b hc hm]
        show (runSync conn emb fuel (applyBatch emb s b)).1.checkpoint
          = ((applyBatch emb s b
              :: (runSync conn emb fuel (applyBatch emb s b)).2).getLastD s).checkpoint
        rw [List.getLastD_cons]
        exact ih (applyBatch emb s b)

/-- Along a run, every trace step advances the checkpoint monotonically
under the connector ordering, and the step that advances the cursor to
a batch's nextCursor is the same transition that upserts that batch's
kept points. -/
theorem runSync_chain (conn : Nat → FetchOutcome) (emb : ProductRecord → Option (List Rat))
    (hmono : ∀ c b, conn c = FetchOutcome.ok b → c ≤ b.nextCursor) (fuel : Nat) (s : JobState) :
    List.Chain (fun t u => t.checkpoint ≤ u.checkpoint ∧
        ∃ b, conn t.checkpoint = FetchOutcome.ok b ∧ u.checkpoint = b.nextCursor ∧
          u.index = upsertBatch t.index (keptPoints emb b.records))
      s (runSync conn emb fuel s).2 := by
  induction fuel generalizing s with
  | zero => exact List.Chain.nil
  | succ fuel ih =>
    cases hc : conn s.checkpoint with
    | err r =>
      rw [runSync_err conn emb fuel s r hc]
      exact List.Chain.nil
    | ok b =>
      cases hm : b.hasMore with
      | false =>
        rw [runSync_ok_done conn emb fuel s b hc hm]
        exact List.Chain.cons ⟨hmono s.checkpoint b hc, b, hc, rfl, rfl⟩ List.Chain.nil
      | true =>
        rw [runSync_ok_more conn emb fuel s b hc hm]
        exact List.Chain.cons ⟨hmono s.checkpoint b hc, b, hc, rfl, rfl⟩
          (ih (applyBatch emb s b))

/-- Processing a batch never sets the Failed status. -/
theorem applyBatch_status_ne_failed (emb : ProductRecord → Option (List Rat))
    (s : JobState) (b : SyncBatch) : (applyBatch emb s b).status ≠ JobStatus.Failed := by
  unfold applyBatch
  by_cases hm : b.hasMore = true
  · simp [hm]
  · simp [hm]

/-- A run whose connector never errors cannot end in the Failed
status. -/
theorem runSync_status_ne_failed (conn : Nat → FetchOutcome)
    (emb : ProductRecord → Option (List Rat))
    (hok : ∀ c r, conn c ≠ FetchOutcome.err r) :
    ∀ fuel s, s.status ≠ JobStatus.Failed →
      (runSync conn emb fuel s).1.status ≠ JobStatus.Failed := by
  intro fuel
  induction fuel with
  | zero => intro s hs; exact hs
  | succ fuel ih =>
    intro s hs
    cases hc : conn s.checkpoint with
    | err r => exact absurd hc (hok s.checkpoint r)
    | ok b =>
      cases hm : b.hasMore with
      | false =>
        rw [runSync_ok_done conn emb fuel s b hc hm]
        exact applyBatch_status_ne_failed emb s b
      | true =>
        rw [runSync_ok_more conn emb fuel s b hc hm]
        exact ih (applyBatch emb s b) (applyBatch_status_ne_failed emb s b)

/-- C4: within a job the checkpoint cursor is advanced only in the same
transition that upserts the corresponding batch, the stored cursor
after batch N is never earlier than after batch N-1 under the
connector ordering, and the final checkpoint — in particular when the
run ends Failed — equals the value after the last successfully
processed batch: it is never advanced speculatively. -/
theorem checkpoint_monotone_after_upsert (conn : Nat → FetchOutcome)
    (emb : ProductRecord → Option (List Rat)) (fuel : Nat) (s : JobState)
    (hmono : ∀ c b, conn c = FetchOutcome.ok b → c ≤ b.nextCursor) :
    List.Chain (fun t u => t.checkpoint ≤ u.checkpoint ∧
        ∃ b, conn t.checkpoint = FetchOutcome.ok b ∧ u.checkpoint = b.nextCursor ∧
          u.index = upsertBatch t.index (keptPoints emb b.records))
      s (runSync conn emb fuel s).2
    ∧ (runSync conn emb fuel s).1.checkpoint
        = ((runSync conn emb fuel s).2.getLastD s).checkpoint
    ∧ ((runSync conn emb fuel s).1.status = JobStatus.Failed →
        (runSync conn emb fuel s).1.checkpoint
          = ((runSync conn emb fuel s).2.getLastD s).checkpoint) :=
  ⟨runSync_chain conn emb hmono fuel s, runSync_last_checkpoint conn emb fuel s,
   fun _ => runSync_last_checkpoint conn emb fuel s⟩

/-- The sample connector only moves the cursor forward. -/
theorem connW_monotone :
    ∀ (c : Nat) (b : SyncBatch), connW c = FetchOutcome.ok b → c ≤ b.nextCursor := by
  intro c b h
  unfold connW at h
  by_cases h0 : (c == 0) = true
  · rw [if_pos h0] at h
    injection h with hb
    subst hb
    have hc : c = 0 := by simpa using h0
    show c ≤ 2
    omega
  · rw [if_neg h0] at h
    by_cases h2 : (c == 2) = true
    · rw [if_pos h2] at h
      injection h with hb
      subst hb
      have hc : c = 2 := by simpa using h2
      show c ≤ 3
      omega
    · rw [if_neg h2] at h
      injection h with hb
      subst hb
      show c ≤ c
      omega

/-- Concrete instantiation of checkpoint_monotone_after_upsert on the
sample connector, embedder and initial job state. -/
theorem checkpoint_monotone_after_upsert_witness :
    List.Chain (fun t u => t.checkpoint ≤ u.checkpoint ∧
        ∃ b, connW t.checkpoint = FetchOutcome.ok b ∧ u.checkpoint = b.nextCursor ∧
          u.index = upsertBatch t.index (keptPoints embW b.records))
      jobW (runSync connW embW 5 jobW).2
    ∧ (runSync connW embW 5 jobW).1.checkpoint
        = ((runSync connW embW 5 jobW).2.getLastD jobW).checkpoint :=
  ⟨(checkpoint_monotone_after_upsert connW embW 5 jobW connW_monotone).1,
   (checkpoint_monotone_after_upsert connW embW 5 jobW connW_monotone).2.1⟩

/-- The sample connector never errors. -/
theorem connW_never_errs : ∀ (c : Nat) (r : Bool), connW c ≠ FetchOutcome.err r := by
  intro c r h
  unfold connW at h
  by_cases h0 : (c == 0) = true
  · rw [if_pos h0] at h
    exact FetchOutcome.noConfusion h
  · rw [if_neg h0] at h
    by_cases h2 : (c == 2) = true
    · rw [if_pos h2] at h
      exact FetchOutcome.noConfusion h
    · rw [if_neg h2] at h
      exact FetchOutcome.noConfusion h

/-- C5: in any batch, exactly the records whose embedding failed are
excluded from that batch's upsert and counted in recordsFailed, the
successfully embedded records are upserted, the batch transition never
sets Failed, and a run whose connector never errors can never end
Failed whatever the embedding failures. -/
theorem partial_batch_isolation (conn : Nat → FetchOutcome)
    (emb : ProductRecord → Option (List Rat)) (fuel : Nat) (s : JobState) (b : SyncBatch)
    (hok : ∀ c r, conn c ≠ FetchOutcome.err r)
    (hs : s.status ≠ JobStatus.Failed)
    (hids : (b.records.map pointIdOf).Nodup) :
    (applyBatch emb s b).index = upsertBatch s.index (keptPoints emb b.records)
    ∧ (applyBatch emb s b).recordsFailed
        = s.recordsFailed + b.records.countP (fun r => (emb r).isNone)
    ∧ (∀ r ∈ b.records, (emb r).isSome = true →
        pointIdOf r ∈ pointIds (applyBatch emb s b).index)
    ∧ (∀ r ∈ b.records, emb r = none → pointIdOf r ∉ pointIds s.index →
        pointIdOf r ∉ pointIds (applyBatch emb s b).index)
    ∧ (applyBatch emb s b).status ≠ JobStatus.Failed
    ∧ (runSync conn emb fuel s).1.status ≠ JobStatus.Failed := by
  refine ⟨rfl, rfl, ?_, ?_, applyBatch_status_ne_failed emb s b,
    runSync_status_ne_failed conn emb hok fuel s hs⟩
  · intro r hr hsome
    show pointIdOf r ∈ pointIds (upsertBatch s.index (keptPoints emb b.records))
    rw [mem_pointIds_upsertBatch]
    right
    obtain ⟨v, hv⟩ := Option.isSome_iff_exists.mp hsome
    have hmem : mkPoint r v ∈ keptPoints emb b.records := by
      unfold keptPoints
      apply List.mem_filterMap.mpr
      refine ⟨r, hr, ?_⟩
      rw [hv]
      rfl
    have h2 : (mkPoint r v).pointId ∈ (keptPoints emb b.records).map IndexedPoint.pointId :=
      List.mem_map_of_mem IndexedPoint.pointId hmem
    exact h2
  · intro r hr hnone hnotin
    show pointIdOf r ∉ pointIds (upsertBatch s.index (keptPoints emb b.records))
    rw [mem_pointIds_upsertBatch]
    rintro (h | h)
    · exact hnotin h
    · have h2 : pointIdOf r ∈ (keptPoints emb b.records).map IndexedPoint.pointId := h
      obtain ⟨p, hp, hpe⟩ := List.mem_map.mp h2
      obtain ⟨r2, hr2, hr2e⟩ := List.mem_filterMap.mp hp
      cases hv : emb r2 with
      | none =>
        rw [hv] at hr2e
        exact Option.noConfusion hr2e
      | some v =>
        rw [hv] at hr2e
        have hpe2 : p = mkPoint r2 v := by
          injection hr2e with h3
          exact h3.symm
        have hid : pointIdOf r2 = pointIdOf r := by
          rw [hpe2] at hpe
          exact hpe
        have hrr : r2 = r := List.inj_on_of_nodup_map hids hr2 hr hid
        rw [hrr, hnone] at hv
        exact Option.noConfusion hv

/-- Concrete instantiation of partial_batch_isolation on a batch whose
second record fails to embed. -/
theorem partial_batch_isolation_witness :
    (applyBatch embW jobW batchW).index
        = upsertBatch jobW.index (keptPoints embW batchW.records)
    ∧ (applyBatch embW jobW batchW).recordsFailed
        = jobW.recordsFailed + batchW.records.countP (fun r => (embW r).isNone)
    ∧ (applyBatch embW jobW batchW).status ≠ JobStatus.Failed
    ∧ (runSync connW embW 5 jobW).1.status ≠ JobStatus.Failed :=
  ⟨(partial_batch_isolation connW embW 5 jobW batchW connW_never_errs (by decide) (by decide)).1,
   (partial_batch_isolation connW embW 5 jobW batchW connW_never_errs (by decide) (by decide)).2.1,
   (partial_batch_isolation connW embW 5 jobW batchW connW_never_errs (by decide) (by decide)).2.2.2.2.1,
   (partial_batch_isolation connW embW 5 jobW batchW connW_never_errs (by decide) (by decide)).2.2.2.2.2⟩

/-- C7: of two StartSync requests for the same key arriving at a store
with a free lease, the first acquires the lease and starts a job and
the second is rejected with SyncAlreadyRunning, leaving the store — in
particular its checkpoints — exactly as the first request left it:
never queued, never overwriting. -/
theorem lease_exclusivity (st : SyncRegistry) (k : LeaseKey) (hfree : k ∉ st.held) :
    (startSync st k).1 = Except.ok st.nextJobId
    ∧ (startSync (startSync st k).2 k).1 = Except.error StartSyncError.SyncAlreadyRunning
    ∧ (startSync (startSync st k).2 k).2 = (startSync st k).2
    ∧ (startSync (startSync st k).2 k).2.checkpoints = st.checkpoints := by
  refine ⟨by simp [startSync, hfree], by simp [startSync, hfree],
    by simp [startSync, hfree], by simp [startSync, hfree]⟩

/-- Concrete instantiation of lease_exclusivity on the sample store and
key. -/
theorem lease_exclusivity_witness :
    (startSync regW keyW).1 = Except.ok regW.nextJobId
    ∧ (startSync (startSync regW keyW).2 keyW).1
        = Except.error StartSyncError.SyncAlreadyRunning
    ∧ (startSync (startSync regW keyW).2 keyW).2.checkpoints = regW.checkpoints :=
  ⟨(lease_exclusivity regW keyW (by decide)).1,
   (lease_exclusivity regW keyW (by decide)).2.1,
   (lease_exclusivity regW keyW (by decide)).2.2.2⟩

/-- Concatenating the chunks of a list restores the list. -/
theorem chunks_flatten (n : Nat) (xs : List α) : (chunks n xs).flatten = xs := by
  match xs with
  | [] => simp [chunks]
  | x :: rest =>
    rw [chunks]
    rw [List.flatten_cons]
    rw [chunks_flatten n ((x :: rest).drop (n + 1))]
    exact List.take_append_drop (n + 1) (x :: rest)
termination_by xs.length
decreasing_by simp [List.length_drop]; omega

/-- C10: embed returns one dense vector per input text with the i-th
output produced from the i-th input, also when computed in sub-batches;
embedImage returns one entry per URL, position by position, an
unfetchable or undecodable image yielding an absent entry while the
batch keeps its full length. -/
theorem embedding_contract (model : String → List Rat) (n : Nat) (texts : List String)
    (fetchEmbed : String → Option (List Rat)) (urls : List String) :
    (embed model texts).length = texts.length
    ∧ (∀ i : Nat, (embed model texts)[i]? = (texts[i]?).map model)
    ∧ embedBatched model n texts = embed model texts
    ∧ (embedImage fetchEmbed urls).length = urls.length
    ∧ (∀ i : Nat, (embedImage fetchEmbed urls)[i]? = (urls[i]?).map fetchEmbed) := by
  refine ⟨by simp [embed], ?_, ?_, by simp [embedImage], ?_⟩
  · intro i
    exact List.getElem?_map model texts i
  · unfold embedBatched embed
    conv_rhs => rw [← chunks_flatten n texts]
    rw [List.map_flatten]
  · intro i
    exact List.getElem?_map fetchEmbed urls i

end EAIChat
